import Mathlib

/-!
Verification development for the core sync engine of the repository
(src/src-tauri/src: transfer_state.rs, file_ops.rs, sync_engine.rs).

Shallow embedding conventions:
* paths are lists of name components (`PathM`); `Path::join` is list append;
* `HashMap<PathBuf, FileTransferState>` is an association list whose key
  uniqueness is an invariant of the reachable states;
* `u64`/`usize` counters are `Nat`, with Rust `saturating_sub` mapped to
  truncated `Nat` subtraction; UTC timestamps are `Int` (nanoseconds);
* wall-clock-only fields (`started_at`, `updated_at`, `completed_at`,
  `speed_bytes_per_sec`) and the random UUID are dropped or fixed: no logic
  of the verified claims reads them;
* error payload strings are opaque `Nat` identifiers.
-/

namespace Rsync

/-- Path model: a path is the list of its components; joining paths appends. -/
abbrev PathM := List Nat

/-- Status enum from transfer_state.rs. Note the source has no distinct
Skipped variant: these six constructors are all of `TransferStatus`. -/
inductive TransferStatus where
  | pending
  | running
  | paused
  | completed
  | failed
  | cancelled
deriving DecidableEq, Repr

/-- Block size for partial-file verification (transfer_state.rs): 256 KiB. -/
def VERIFICATION_BLOCK_SIZE : Nat := 256 * 1024

/-- Number of trailing blocks re-verified on resume (transfer_state.rs). -/
def BLOCKS_TO_VERIFY : Nat := 4

/-- Per-file transfer record (struct FileTransferState, transfer_state.rs). -/
structure FileTransferState where
  source_path : PathM
  dest_path : PathM
  total_bytes : Nat
  bytes_transferred : Nat
  last_block_hash : Option Nat
  last_verified_offset : Nat
  source_mtime : Int
  status : TransferStatus
  error : Option Nat
deriving DecidableEq, Repr

/-- FileTransferState::new. -/
def FileTransferState.new (source_path dest_path : PathM) (total_bytes : Nat)
    (mtime : Int) : FileTransferState :=
  { source_path := source_path
    dest_path := dest_path
    total_bytes := total_bytes
    bytes_transferred := 0
    last_block_hash := none
    last_verified_offset := 0
    source_mtime := mtime
    status := TransferStatus.pending
    error := none }

/-- FileTransferState::is_complete. -/
def FileTransferState.is_complete (s : FileTransferState) : Bool :=
  s.total_bytes ≤ s.bytes_transferred

/-- FileTransferState::get_resume_offset: rewind the last
`BLOCKS_TO_VERIFY * VERIFICATION_BLOCK_SIZE` bytes, clamped at zero. -/
def FileTransferState.get_resume_offset (s : FileTransferState) : Nat :=
  if VERIFICATION_BLOCK_SIZE * BLOCKS_TO_VERIFY < s.last_verified_offset then
    s.last_verified_offset - VERIFICATION_BLOCK_SIZE * BLOCKS_TO_VERIFY
  else
    0

/-- Lookup in the files map (HashMap::get on the association-list model). -/
def filesGet (files : List (PathM × FileTransferState)) (k : PathM) :
    Option FileTransferState :=
  (files.find? (fun q => decide (q.1 = k))).map Prod.snd

/-- In-place mutation of the entry at key `k` (HashMap::get_mut followed by
field updates). Every entry carrying the key is rewritten; reachable states
keep the keys distinct, so at most one entry is affected. -/
def filesUpdate (files : List (PathM × FileTransferState)) (k : PathM)
    (f : FileTransferState → FileTransferState) :
    List (PathM × FileTransferState) :=
  files.map (fun q => if q.1 = k then (q.1, f q.2) else q)

/-- HashMap::insert: replace the entry at the key if present, else add one. -/
def filesInsert (files : List (PathM × FileTransferState)) (k : PathM)
    (v : FileTransferState) : List (PathM × FileTransferState) :=
  if (filesGet files k).isSome then
    files.map (fun q => if q.1 = k then (k, v) else q)
  else
    (k, v) :: files

/-- Per-sync transfer record (struct TransferState, transfer_state.rs). -/
structure TransferState where
  id : Nat
  source_path : PathM
  dest_path : PathM
  status : TransferStatus
  total_bytes : Nat
  bytes_transferred : Nat
  total_files : Nat
  files_completed : Nat
  files_failed : Nat
  files_skipped : Nat
  files : List (PathM × FileTransferState)
  conflicts : List PathM
  conflicts_resolved : Nat
  current_file : Option PathM
  error : Option Nat
deriving DecidableEq, Repr

/-- TransferState::new (the random UUID is fixed to 0 in the model). -/
def TransferState.new (source_path dest_path : PathM) : TransferState :=
  { id := 0
    source_path := source_path
    dest_path := dest_path
    status := TransferStatus.pending
    total_bytes := 0
    bytes_transferred := 0
    total_files := 0
    files_completed := 0
    files_failed := 0
    files_skipped := 0
    files := []
    conflicts := []
    conflicts_resolved := 0
    current_file := none
    error := none }

/-- TransferState::add_file. -/
def TransferState.add_file (st : TransferState) (f : FileTransferState) :
    TransferState :=
  { st with
    total_bytes := st.total_bytes + f.total_bytes
    total_files := st.total_files + 1
    files := filesInsert st.files f.source_path f }

/-- TransferState::update_file_progress: set the file's byte count and
verified offset, add the saturating delta to the aggregate byte count. -/
def TransferState.update_file_progress (st : TransferState) (p : PathM)
    (bytes : Nat) (hash : Option Nat) : TransferState :=
  match filesGet st.files p with
  | none => st
  | some fs =>
    { st with
      files := filesUpdate st.files p (fun f =>
        { f with
          bytes_transferred := bytes
          last_verified_offset := bytes
          last_block_hash := hash })
      bytes_transferred := st.bytes_transferred + (bytes - fs.bytes_transferred) }

/-- TransferState::complete_file: credit the remaining bytes, fill the file's
byte count to its total and mark it Completed. -/
def TransferState.complete_file (st : TransferState) (p : PathM) :
    TransferState :=
  match filesGet st.files p with
  | none => st
  | some fs =>
    { st with
      bytes_transferred := st.bytes_transferred + (fs.total_bytes - fs.bytes_transferred)
      files := filesUpdate st.files p (fun f =>
        { f with
          bytes_transferred := f.total_bytes
          status := TransferStatus.completed })
      files_completed := st.files_completed + 1 }

/-- TransferState::fail_file. -/
def TransferState.fail_file (st : TransferState) (p : PathM) (e : Nat) :
    TransferState :=
  match filesGet st.files p with
  | none => st
  | some _ =>
    { st with
      files := filesUpdate st.files p (fun f =>
        { f with
          status := TransferStatus.failed
          error := some e })
      files_failed := st.files_failed + 1 }

/-- TransferState::skip_file: the skipped file's status becomes Completed
(there is no Skipped status); only the skip counter is incremented. -/
def TransferState.skip_file (st : TransferState) (p : PathM) : TransferState :=
  match filesGet st.files p with
  | none => st
  | some _ =>
    { st with
      files := filesUpdate st.files p (fun f =>
        { f with status := TransferStatus.completed })
      files_skipped := st.files_skipped + 1 }

/-- One mutating call on a TransferState, with its arguments. -/
inductive TransferOp where
  | addFile (f : FileTransferState)
  | updateProgress (p : PathM) (bytes : Nat) (hash : Option Nat)
  | completeFile (p : PathM)
  | failFile (p : PathM) (e : Nat)
  | skipFile (p : PathM)
deriving DecidableEq, Repr

/-- Dispatch of one mutating call. -/
def TransferState.applyOp (st : TransferState) : TransferOp → TransferState
  | TransferOp.addFile f => st.add_file f
  | TransferOp.updateProgress p b h => st.update_file_progress p b h
  | TransferOp.completeFile p => st.complete_file p
  | TransferOp.failFile p e => st.fail_file p e
  | TransferOp.skipFile p => st.skip_file p

/-- A sequence of mutating calls applied in order. -/
def TransferState.applyOps (st : TransferState) (ops : List TransferOp) :
    TransferState :=
  ops.foldl TransferState.applyOp st

/-- Sum of the per-file transferred byte counts over the files map. -/
def sumBytes (files : List (PathM × FileTransferState)) : Nat :=
  (files.map (fun q => q.2.bytes_transferred)).sum

/-- Per-file record invariant claimed by the specification (first two
conjuncts of the §3 FileTransferRecord invariant). -/
def perFileInvariant (fs : FileTransferState) : Prop :=
  fs.bytes_transferred ≤ fs.total_bytes ∧
    fs.last_verified_offset ≤ fs.bytes_transferred

/-- States of the transfer registry in which every per-file record is
internally consistent, keys are distinct and the aggregate byte count is the
sum of the per-file counts. -/
def GoodState (st : TransferState) : Prop :=
  (∀ q ∈ st.files, perFileInvariant q.2) ∧
    (st.files.map Prod.fst).Nodup ∧
    st.bytes_transferred = sumBytes st.files

/-- Admissibility of one call: files are added fresh as built by
FileTransferState::new (zero progress, unused key), and progress updates
report a byte count between the file's current count and its total. These
are the shapes in which sync_engine.rs invokes the mutating calls. -/
def admissibleOpB (st : TransferState) : TransferOp → Bool
  | TransferOp.addFile f =>
      decide (f.bytes_transferred = 0) && decide (f.last_verified_offset = 0)
        && (filesGet st.files f.source_path).isNone
  | TransferOp.updateProgress p b _ =>
      match filesGet st.files p with
      | none => true
      | some fs => decide (fs.bytes_transferred ≤ b) && decide (b ≤ fs.total_bytes)
  | TransferOp.completeFile _ => true
  | TransferOp.failFile _ _ => true
  | TransferOp.skipFile _ => true

/-- Admissibility of a call sequence, each call judged in the state where it
is applied. -/
def admissibleTraceB (st : TransferState) : List TransferOp → Bool
  | [] => true
  | op :: ops => admissibleOpB st op && admissibleTraceB (st.applyOp op) ops

theorem filesGet_cons (a : PathM × FileTransferState)
    (l : List (PathM × FileTransferState)) (k : PathM) :
    filesGet (a :: l) k = if a.1 = k then some a.2 else filesGet l k := by
  by_cases h : a.1 = k <;> simp [filesGet, List.find?, h]

theorem filesUpdate_cons (a : PathM × FileTransferState)
    (l : List (PathM × FileTransferState)) (k : PathM)
    (f : FileTransferState → FileTransferState) :
    filesUpdate (a :: l) k f
      = (if a.1 = k then (a.1, f a.2) else a) :: filesUpdate l k f := by
  simp [filesUpdate]

theorem keys_filesUpdate (l : List (PathM × FileTransferState)) (k : PathM)
    (f : FileTransferState → FileTransferState) :
    (filesUpdate l k f).map Prod.fst = l.map Prod.fst := by
  induction l with
  | nil => rfl
  | cons a t ih =>
    rw [filesUpdate_cons]
    by_cases h : a.1 = k <;> simp [h, ih]

theorem filesGet_none_iff (l : List (PathM × FileTransferState)) (k : PathM) :
    filesGet l k = none ↔ k ∉ l.map Prod.fst := by
  induction l with
  | nil => simp [filesGet]
  | cons a t ih =>
    obtain ⟨a1, a2⟩ := a
    rw [filesGet_cons, List.map_cons, List.mem_cons]
    by_cases h : a1 = k
    · subst h
      simp
    · have hne : ¬ k = a1 := fun hk => h hk.symm
      simp [h, ih, hne]

theorem mem_of_filesGet (l : List (PathM × FileTransferState)) (k : PathM)
    (fs : FileTransferState) (h : filesGet l k = some fs) : (k, fs) ∈ l := by
  induction l with
  | nil => simp [filesGet] at h
  | cons a t ih =>
    obtain ⟨a1, a2⟩ := a
    rw [filesGet_cons] at h
    by_cases hk : a1 = k
    · subst hk
      simp at h
      subst h
      exact List.mem_cons_self _ _
    · simp [hk] at h
      exact List.mem_cons_of_mem _ (ih h)

theorem filesGet_eq_of_nodup_mem (l : List (PathM × FileTransferState))
    (q : PathM × FileTransferState) (hn : (l.map Prod.fst).Nodup)
    (hm : q ∈ l) : filesGet l q.1 = some q.2 := by
  induction l with
  | nil => simp at hm
  | cons a t ih =>
    obtain ⟨a1, a2⟩ := a
    rw [List.map_cons, List.nodup_cons] at hn
    rw [filesGet_cons]
    rcases List.mem_cons.mp hm with h | h
    · subst h
      simp
    · have hne : (a1, a2).1 ≠ q.1 := by
        intro he
        exact hn.1 (he ▸ (List.mem_map.mpr ⟨q, h, rfl⟩))
      rw [if_neg hne]
      exact ih hn.2 h

theorem filesUpdate_of_not_mem (l : List (PathM × FileTransferState))
    (k : PathM) (f : FileTransferState → FileTransferState)
    (h : k ∉ l.map Prod.fst) : filesUpdate l k f = l := by
  induction l with
  | nil => rfl
  | cons a t ih =>
    obtain ⟨a1, a2⟩ := a
    rw [List.map_cons, List.mem_cons] at h
    push_neg at h
    rw [filesUpdate_cons]
    have hne : ¬ (a1, a2).1 = k := fun he => h.1 he.symm
    rw [if_neg hne, ih h.2]

theorem filesGet_filesUpdate_self (l : List (PathM × FileTransferState))
    (k : PathM) (f : FileTransferState → FileTransferState) :
    filesGet (filesUpdate l k f) k = (filesGet l k).map f := by
  induction l with
  | nil => rfl
  | cons a t ih =>
    obtain ⟨a1, a2⟩ := a
    rw [filesUpdate_cons]
    by_cases h : (a1, a2).1 = k
    · rw [if_pos h, filesGet_cons, filesGet_cons, if_pos h, if_pos h]
      rfl
    · rw [if_neg h, filesGet_cons, filesGet_cons, if_neg h, if_neg h, ih]

theorem sumBytes_filesUpdate (l : List (PathM × FileTransferState))
    (k : PathM) (f : FileTransferState → FileTransferState)
    (fs : FileTransferState) (hn : (l.map Prod.fst).Nodup)
    (h : filesGet l k = some fs) :
    sumBytes (filesUpdate l k f) + fs.bytes_transferred
      = sumBytes l + (f fs).bytes_transferred := by
  induction l with
  | nil => simp [filesGet] at h
  | cons a t ih =>
    obtain ⟨a1, a2⟩ := a
    rw [List.map_cons, List.nodup_cons] at hn
    rw [filesGet_cons] at h
    rw [filesUpdate_cons]
    by_cases hk : (a1, a2).1 = k
    · rw [if_pos hk] at h
      rw [if_pos hk]
      have h2 : a2 = fs := by
        injection h
      subst h2
      have hnot : k ∉ t.map Prod.fst := by
        intro hmem
        exact hn.1 (hk ▸ hmem)
      rw [filesUpdate_of_not_mem t k f hnot]
      simp [sumBytes]
      omega
    · rw [if_neg hk] at h
      rw [if_neg hk]
      have := ih hn.2 h
      simp only [sumBytes, List.map_cons, List.sum_cons] at this ⊢
      omega

theorem goodState_new (src dst : PathM) : GoodState (TransferState.new src dst) := by
  refine ⟨?_, ?_, ?_⟩ <;> simp [TransferState.new, sumBytes]

theorem goodState_applyOp (st : TransferState) (op : TransferOp)
    (h : GoodState st) (ha : admissibleOpB st op = true) :
    GoodState (st.applyOp op) := by
  obtain ⟨hinv, hnd, hsum⟩ := h
  cases op with
  | addFile f =>
    simp only [admissibleOpB, Bool.and_eq_true, decide_eq_true_eq,
      Option.isNone_iff_eq_none] at ha
    obtain ⟨⟨hb0, hl0⟩, hnone⟩ := ha
    have hcons : filesInsert st.files f.source_path f
        = (f.source_path, f) :: st.files := by
      simp [filesInsert, hnone]
    refine ⟨?_, ?_, ?_⟩
    · intro q hq
      simp only [TransferState.applyOp, TransferState.add_file, hcons,
        List.mem_cons] at hq
      rcases hq with hq | hq
      · subst hq
        show perFileInvariant f
        exact ⟨by omega, by omega⟩
      · exact hinv q hq
    · simp only [TransferState.applyOp, TransferState.add_file, hcons,
        List.map_cons, List.nodup_cons]
      exact ⟨(filesGet_none_iff st.files f.source_path).mp hnone, hnd⟩
    · simp only [TransferState.applyOp, TransferState.add_file, hcons, sumBytes,
        List.map_cons, List.sum_cons]
      simp only [sumBytes] at hsum
      omega
  | updateProgress p b hash =>
    cases hfg : filesGet st.files p with
    | none =>
      simp only [TransferState.applyOp, TransferState.update_file_progress, hfg]
      exact ⟨hinv, hnd, hsum⟩
    | some fs =>
      simp only [admissibleOpB, hfg, Bool.and_eq_true, decide_eq_true_eq] at ha
      obtain ⟨hmono, hbound⟩ := ha
      simp only [TransferState.applyOp, TransferState.update_file_progress, hfg]
      refine ⟨?_, ?_, ?_⟩
      · intro q hq
        simp only [filesUpdate, List.mem_map] at hq
        obtain ⟨r, hr, hq⟩ := hq
        by_cases hk : r.1 = p
        · rw [if_pos hk] at hq
          have hget : filesGet st.files r.1 = some r.2 :=
            filesGet_eq_of_nodup_mem st.files r hnd hr
          rw [hk, hfg] at hget
          have hr2 : r.2 = fs := by
            injection hget.symm
          subst hq
          refine ⟨?_, ?_⟩
          · simpa [hr2] using hbound
          · simp
        · rw [if_neg hk] at hq
          subst hq
          exact hinv r hr
      · rw [show (filesUpdate st.files p _).map Prod.fst = st.files.map Prod.fst
            from keys_filesUpdate ..]
        exact hnd
      · have hkey := sumBytes_filesUpdate st.files p
          (fun f =>
            { f with
              bytes_transferred := b
              last_verified_offset := b
              last_block_hash := hash }) fs hnd hfg
        simp only at hkey
        simp only [sumBytes] at hsum hkey ⊢
        omega
  | completeFile p =>
    cases hfg : filesGet st.files p with
    | none =>
      simp only [TransferState.applyOp, TransferState.complete_file, hfg]
      exact ⟨hinv, hnd, hsum⟩
    | some fs =>
      simp only [TransferState.applyOp, TransferState.complete_file, hfg]
      refine ⟨?_, ?_, ?_⟩
      · intro q hq
        simp only [filesUpdate, List.mem_map] at hq
        obtain ⟨r, hr, hq⟩ := hq
        have hrinv := hinv r hr
        by_cases hk : r.1 = p
        · rw [if_pos hk] at hq
          subst hq
          obtain ⟨h1, h2⟩ := hrinv
          exact ⟨le_refl _, by simp; omega⟩
        · rw [if_neg hk] at hq
          subst hq
          exact hrinv
      · rw [show (filesUpdate st.files p _).map Prod.fst = st.files.map Prod.fst
            from keys_filesUpdate ..]
        exact hnd
      · have hfsinv := hinv (p, fs) (mem_of_filesGet st.files p fs hfg)
        have hkey := sumBytes_filesUpdate st.files p
          (fun f =>
            { f with
              bytes_transferred := f.total_bytes
              status := TransferStatus.completed }) fs hnd hfg
        simp only at hkey
        simp only [sumBytes] at hsum hkey ⊢
        obtain ⟨h1, _⟩ := hfsinv
        simp only at h1
        omega
  | failFile p e =>
    cases hfg : filesGet st.files p with
    | none =>
      simp only [TransferState.applyOp, TransferState.fail_file, hfg]
      exact ⟨hinv, hnd, hsum⟩
    | some fs =>
      simp only [TransferState.applyOp, TransferState.fail_file, hfg]
      refine ⟨?_, ?_, ?_⟩
      · intro q hq
        simp only [filesUpdate, List.mem_map] at hq
        obtain ⟨r, hr, hq⟩ := hq
        have hrinv := hinv r hr
        by_cases hk : r.1 = p
        · rw [if_pos hk] at hq
          subst hq
          exact hrinv
        · rw [if_neg hk] at hq
          subst hq
          exact hrinv
      · rw [show (filesUpdate st.files p _).map Prod.fst = st.files.map Prod.fst
            from keys_filesUpdate ..]
        exact hnd
      · have hkey := sumBytes_filesUpdate st.files p
          (fun f => { f with status := TransferStatus.failed, error := some e })
          fs hnd hfg
        simp only at hkey
        simp only [sumBytes] at hsum hkey ⊢
        omega
  | skipFile p =>
    cases hfg : filesGet st.files p with
    | none =>
      simp only [TransferState.applyOp, TransferState.skip_file, hfg]
      exact ⟨hinv, hnd, hsum⟩
    | some fs =>
      simp only [TransferState.applyOp, TransferState.skip_file, hfg]
      refine ⟨?_, ?_, ?_⟩
      · intro q hq
        simp only [filesUpdate, List.mem_map] at hq
        obtain ⟨r, hr, hq⟩ := hq
        have hrinv := hinv r hr
        by_cases hk : r.1 = p
        · rw [if_pos hk] at hq
          subst hq
          exact hrinv
        · rw [if_neg hk] at hq
          subst hq
          exact hrinv
      · rw [show (filesUpdate st.files p _).map Prod.fst = st.files.map Prod.fst
            from keys_filesUpdate ..]
        exact hnd
      · have hkey := sumBytes_filesUpdate st.files p
          (fun f => { f with status := TransferStatus.completed }) fs hnd hfg
        simp only at hkey
        simp only [sumBytes] at hsum hkey ⊢
        omega

theorem goodState_applyOps (st : TransferState) (ops : List TransferOp)
    (h : GoodState st) (ha : admissibleTraceB st ops = true) :
    GoodState (st.applyOps ops) := by
  induction ops generalizing st with
  | nil => exact h
  | cons op ops ih =>
    simp only [admissibleTraceB, Bool.and_eq_true] at ha
    exact ih (st.applyOp op) (goodState_applyOp st op h ha.1) ha.2

/-- Per-file record invariant exactly as claim C7 states it, third conjunct
included. -/
def specFileInvariant (fs : FileTransferState) : Prop :=
  fs.bytes_transferred ≤ fs.total_bytes ∧
    fs.last_verified_offset ≤ fs.bytes_transferred ∧
    (fs.status = TransferStatus.completed → fs.bytes_transferred = fs.total_bytes)

instance : DecidablePred specFileInvariant := fun fs => by
  unfold specFileInvariant
  infer_instance

/-- Aggregate invariant exactly as claim C8 states it: the transfer's byte
count is the sum of the per-file byte counts. -/
def specAggregateInvariant (st : TransferState) : Prop :=
  st.bytes_transferred = sumBytes st.files

instance : DecidablePred specAggregateInvariant := fun st => by
  unfold specAggregateInvariant
  infer_instance

/-- C6: get_resume_offset returns max(0, last_verified_offset − 4 · 256 KiB):
last_verified_offset − 1 MiB when last_verified_offset exceeds 1 MiB, and 0
otherwise, including at exactly 1 MiB. -/
theorem c6_resume_offset (s : FileTransferState) :
    ((s.get_resume_offset : Int)
        = max 0 ((s.last_verified_offset : Int)
            - BLOCKS_TO_VERIFY * VERIFICATION_BLOCK_SIZE))
      ∧ (s.last_verified_offset ≤ 1024 * 1024 → s.get_resume_offset = 0)
      ∧ (1024 * 1024 < s.last_verified_offset →
          s.get_resume_offset = s.last_verified_offset - 1024 * 1024) := by
  unfold FileTransferState.get_resume_offset VERIFICATION_BLOCK_SIZE BLOCKS_TO_VERIFY
  refine ⟨?_, ?_, ?_⟩
  · rw [max_def]
    split <;> split <;> push_cast <;> omega
  · intro h
    rw [if_neg (by omega)]
  · intro h
    rw [if_pos (by omega)]

/-- Record of a resumable file rewound by exactly 1 MiB, exercising both
branches of C6 through the theorem. -/
def c6Sample : FileTransferState :=
  { FileTransferState.new [0] [1] (2 * 1024 * 1024) 0 with
    last_verified_offset := 1024 * 1024 + 7 }

/-- Witness for C6 at concrete offsets: 1 MiB + 7 rewinds to 7, and an offset
of 0 stays at 0. -/
theorem c6_resume_offset_witness :
    c6Sample.get_resume_offset = 1024 * 1024 + 7 - 1024 * 1024 ∧
      (FileTransferState.new [0] [1] 0 0).get_resume_offset = 0 :=
  ⟨(c6_resume_offset c6Sample).2.2 (by decide),
   (c6_resume_offset (FileTransferState.new [0] [1] 0 0)).2.1 (by decide)⟩

/-- Call sequence refuting C7: add a fresh 5-byte file, report 9 bytes of
progress, then skip it. -/
def c7Trace : List TransferOp :=
  [TransferOp.addFile (FileTransferState.new [5] [6] 5 0),
   TransferOp.updateProgress [5] 9 none,
   TransferOp.skipFile [5]]

/-- The state reached by `c7Trace` from TransferState::new. -/
def c7State : TransferState := (TransferState.new [0] [1]).applyOps c7Trace

/-- Claim C7 is false as stated: the state reached by `c7Trace` holds a file
record with bytes_transferred = 9 > total_bytes = 5 (update_file_progress
does not clamp), and with status Completed while bytes_transferred ≠
total_bytes (skip_file sets Completed without filling the byte count). -/
theorem c7_counterexample : ¬ ∀ q ∈ c7State.files, specFileInvariant q.2 := by
  decide

/-- C7 (amended): every per-file record reachable from TransferState::new by
an admissible call sequence — files added fresh as FileTransferState::new
builds them, and every update_file_progress reporting a byte count between
the file's current count and its total — satisfies bytes_transferred ≤
total_bytes and last_verified_offset ≤ bytes_transferred. The conjunct
"status = Completed → bytes_transferred = total_bytes" is dropped: skip_file
marks a skipped file Completed without touching its byte count. -/
theorem c7_file_invariants_amended (src dst : PathM) (ops : List TransferOp)
    (h : admissibleTraceB (TransferState.new src dst) ops = true)
    (p : PathM) (fs : FileTransferState)
    (hget : filesGet ((TransferState.new src dst).applyOps ops).files p = some fs) :
    fs.bytes_transferred ≤ fs.total_bytes ∧
      fs.last_verified_offset ≤ fs.bytes_transferred := by
  have hg := goodState_applyOps (TransferState.new src dst) ops
    (goodState_new src dst) h
  exact hg.1 (p, fs) (mem_of_filesGet _ p fs hget)

/-- Admissible call sequence: a fresh 10-byte file, 4 bytes of progress, then
a skip. -/
def c7WitnessTrace : List TransferOp :=
  [TransferOp.addFile (FileTransferState.new [5] [6] 10 0),
   TransferOp.updateProgress [5] 4 none,
   TransferOp.skipFile [5]]

/-- The file record reached by `c7WitnessTrace`. -/
def c7WitnessRecord : FileTransferState :=
  { source_path := [5]
    dest_path := [6]
    total_bytes := 10
    bytes_transferred := 4
    last_block_hash := none
    last_verified_offset := 4
    source_mtime := 0
    status := TransferStatus.completed
    error := none }

/-- Witness for the amended C7 on the concrete trace `c7WitnessTrace`. -/
theorem c7_file_invariants_amended_witness :
    c7WitnessRecord.bytes_transferred ≤ c7WitnessRecord.total_bytes ∧
      c7WitnessRecord.last_verified_offset ≤ c7WitnessRecord.bytes_transferred :=
  c7_file_invariants_amended [0] [1] c7WitnessTrace (by decide) [5]
    c7WitnessRecord (by decide)

/-- Call sequence refuting C8: a fresh 10-byte file, progress 10, then a
progress report that goes backwards to 5. -/
def c8Trace : List TransferOp :=
  [TransferOp.addFile (FileTransferState.new [5] [6] 10 0),
   TransferOp.updateProgress [5] 10 none,
   TransferOp.updateProgress [5] 5 none]

/-- The state reached by `c8Trace` from TransferState::new. -/
def c8State : TransferState := (TransferState.new [0] [1]).applyOps c8Trace

/-- Claim C8 is false as stated: after `c8Trace` the aggregate count is 10
(the saturating delta of a backwards report is 0) while the per-file sum is
5, so bytes_transferred ≠ Σ file.bytes_transferred. -/
theorem c8_counterexample : ¬ specAggregateInvariant c8State := by decide

/-- C8 (amended): every TransferState reachable from TransferState::new by an
admissible call sequence — files added fresh as FileTransferState::new builds
them, and every update_file_progress reporting a monotone byte count bounded
by the file's total — has its aggregate bytes_transferred equal to the sum of
the per-file bytes_transferred. -/
theorem c8_aggregate_bytes_amended (src dst : PathM) (ops : List TransferOp)
    (h : admissibleTraceB (TransferState.new src dst) ops = true) :
    specAggregateInvariant ((TransferState.new src dst).applyOps ops) :=
  (goodState_applyOps (TransferState.new src dst) ops (goodState_new src dst) h).2.2

/-- Admissible call sequence: two files added fresh, forward progress, one
completion, one failure and one skip. -/
def c8WitnessTrace : List TransferOp :=
  [TransferOp.addFile (FileTransferState.new [5] [6] 10 0),
   TransferOp.addFile (FileTransferState.new [7] [8] 3 0),
   TransferOp.updateProgress [5] 4 (some 11),
   TransferOp.updateProgress [5] 10 none,
   TransferOp.completeFile [5],
   TransferOp.failFile [7] 1,
   TransferOp.skipFile [7]]

/-- Witness for the amended C8 on the concrete trace `c8WitnessTrace`. -/
theorem c8_aggregate_bytes_amended_witness :
    specAggregateInvariant ((TransferState.new [0] [1]).applyOps c8WitnessTrace) :=
  c8_aggregate_bytes_amended [0] [1] c8WitnessTrace (by decide)

/-- Scan snapshot of one source entry (struct FileInfo, file_ops.rs); `path`
is relative to the scan root. -/
structure FileInfoM where
  path : PathM
  size : Nat
  modified : Int
  is_dir : Bool
  is_symlink : Bool
deriving DecidableEq, Repr

/-- Metadata read from an existing destination file (fs::metadata followed by
metadata_to_datetime and len in detect_delta_detailed). -/
structure DestMeta where
  modified : Int
  size : Nat
deriving DecidableEq, Repr

/-- DeltaStatus from file_ops.rs. -/
inductive DeltaStatus where
  | new
  | modified
  | unchanged
  | orphan
deriving DecidableEq, Repr

/-- DeltaInfo from file_ops.rs. -/
structure DeltaInfo where
  status : DeltaStatus
  source_newer : Bool
  source_older : Bool
  size_differs : Bool
deriving DecidableEq, Repr

/-- detect_delta_detailed (file_ops.rs). The destination lookup
(dest_path.join(source.path): existence test plus metadata read) is passed as
an Option: none models an absent destination file; a metadata read that
errors propagates out of the function and is outside this model. -/
def detect_delta_detailed (source : FileInfoM) (dest : Option DestMeta) :
    DeltaInfo :=
  match dest with
  | none =>
    { status := DeltaStatus.new
      source_newer := true
      source_older := false
      size_differs := false }
  | some d =>
    let source_newer := decide (d.modified < source.modified)
    let source_older := decide (source.modified < d.modified)
    let size_differs := decide (source.size ≠ d.size)
    if size_differs || source_newer then
      { status := DeltaStatus.modified
        source_newer := source_newer
        source_older := source_older
        size_differs := size_differs }
    else
      { status := DeltaStatus.unchanged
        source_newer := source_newer
        source_older := source_older
        size_differs := size_differs }

/-- C4: detect_delta_detailed returns status New with source_newer = true,
source_older = false, size_differs = false when the destination file is
absent; status Modified exactly when the sizes differ or the source mtime is
strictly greater than the destination mtime, with the three flags computed
from the two metadata snapshots; and status Unchanged otherwise — in
particular, identical mtime with identical size is Unchanged. -/
theorem c4_delta_classifier (source : FileInfoM) (dest : Option DestMeta) :
    (dest = none →
      detect_delta_detailed source dest =
        { status := DeltaStatus.new
          source_newer := true
          source_older := false
          size_differs := false }) ∧
    (∀ d, dest = some d →
      ((detect_delta_detailed source dest).source_newer
            = decide (d.modified < source.modified)
          ∧ (detect_delta_detailed source dest).source_older
            = decide (source.modified < d.modified)
          ∧ (detect_delta_detailed source dest).size_differs
            = decide (source.size ≠ d.size))
        ∧ ((source.size ≠ d.size ∨ d.modified < source.modified) ↔
            (detect_delta_detailed source dest).status = DeltaStatus.modified)
        ∧ ((source.size = d.size ∧ ¬ d.modified < source.modified) ↔
            (detect_delta_detailed source dest).status = DeltaStatus.unchanged)
        ∧ (source.modified = d.modified ∧ source.size = d.size →
            (detect_delta_detailed source dest).status = DeltaStatus.unchanged)) := by
  constructor
  · intro h
    subst h
    rfl
  · intro d h
    subst h
    unfold detect_delta_detailed
    by_cases h1 : source.size = d.size <;>
      by_cases h2 : d.modified < source.modified <;>
        simp [h1, h2] <;> omega

/-- SyncMode from sync_engine.rs. -/
inductive SyncMode where
  | copy
  | move
deriving DecidableEq, Repr

/-- ConflictResolution from sync_engine.rs. -/
inductive ConflictResolution where
  | overwrite
  | skip
  | rename
  | ask
deriving DecidableEq, Repr

/-- SyncOptions from sync_engine.rs (the fields the verified logic reads;
source, destination, buffer_size and exclude_patterns are carried separately
where needed). -/
structure SyncOptionsM where
  mode : SyncMode
  conflict_resolution : ConflictResolution
  verify_integrity : Bool
  preserve_metadata : Bool
  delete_orphans : Bool
  dry_run : Bool
  follow_symlinks : Bool
  max_concurrent_files : Nat
  overwrite_newer : Bool
  overwrite_older : Bool
  skip_existing : Bool
  bandwidth_limit : Nat
deriving DecidableEq, Repr

/-- Outcome of the per-file overwrite decision in sync_file_static:
skip the file, or copy it; `renamed` is true when the copy goes to
generate_conflict_name(dest) rather than to the destination path itself. -/
inductive CopyDecision where
  | skip
  | copyTo (renamed : Bool)
deriving DecidableEq, Repr

/-- Per-file decision logic of sync_file_static (sync_engine.rs): Unchanged
deltas are skipped; Modified deltas pass through skip_existing, then the
overwrite flags, then conflict_resolution; the copy is redirected to the
generated conflict name exactly when the delta is Modified,
conflict_resolution is Rename and neither overwrite flag is set. -/
def sync_file_decision (delta : DeltaInfo) (o : SyncOptionsM) : CopyDecision :=
  if delta.status = DeltaStatus.unchanged then
    CopyDecision.skip
  else if delta.status = DeltaStatus.modified then
    if o.skip_existing then
      CopyDecision.skip
    else
      let should_overwrite :=
        if o.overwrite_newer && o.overwrite_older then
          true
        else if o.overwrite_newer then
          delta.source_newer || delta.size_differs
        else if o.overwrite_older then
          delta.source_older
        else
          match o.conflict_resolution with
          | ConflictResolution.skip => false
          | ConflictResolution.ask => false
          | ConflictResolution.overwrite => true
          | ConflictResolution.rename => true
      if should_overwrite then
        CopyDecision.copyTo
          (decide (o.conflict_resolution = ConflictResolution.rename)
            && !o.overwrite_newer && !o.overwrite_older)
      else
        CopyDecision.skip
  else
    CopyDecision.copyTo false

/-- C5: for a Modified delta the overwrite decision follows exactly this
precedence: skip_existing skips; both overwrite flags overwrite; only
overwrite_newer overwrites iff source_newer or size_differs; only
overwrite_older overwrites iff source_older; otherwise conflict_resolution
Skip and Ask skip, Overwrite copies in place and Rename copies under the
generated conflict name. Unchanged deltas are always skipped and New deltas
always copied in place. -/
theorem c5_overwrite_decision (delta : DeltaInfo) (o : SyncOptionsM) :
    (delta.status = DeltaStatus.unchanged →
      sync_file_decision delta o = CopyDecision.skip) ∧
    (delta.status = DeltaStatus.new →
      sync_file_decision delta o = CopyDecision.copyTo false) ∧
    (delta.status = DeltaStatus.modified →
      (o.skip_existing = true →
        sync_file_decision delta o = CopyDecision.skip) ∧
      (o.skip_existing = false →
        (o.overwrite_newer = true → o.overwrite_older = true →
          sync_file_decision delta o = CopyDecision.copyTo false) ∧
        (o.overwrite_newer = true → o.overwrite_older = false →
          sync_file_decision delta o =
            (if delta.source_newer || delta.size_differs then
              CopyDecision.copyTo false
            else
              CopyDecision.skip)) ∧
        (o.overwrite_newer = false → o.overwrite_older = true →
          sync_file_decision delta o =
            (if delta.source_older then
              CopyDecision.copyTo false
            else
              CopyDecision.skip)) ∧
        (o.overwrite_newer = false → o.overwrite_older = false →
          ((o.conflict_resolution = ConflictResolution.skip ∨
              o.conflict_resolution = ConflictResolution.ask) →
            sync_file_decision delta o = CopyDecision.skip) ∧
          (o.conflict_resolution = ConflictResolution.overwrite →
            sync_file_decision delta o = CopyDecision.copyTo false) ∧
          (o.conflict_resolution = ConflictResolution.rename →
            sync_file_decision delta o = CopyDecision.copyTo true)))) := by
  refine ⟨?_, ?_, ?_⟩
  · intro h
    simp [sync_file_decision, h]
  · intro h
    unfold sync_file_decision
    rw [if_neg (by rw [h]; intro hc; cases hc), if_neg (by rw [h]; intro hc; cases hc)]
  · intro h
    refine ⟨?_, ?_⟩
    · intro hs
      simp [sync_file_decision, h, hs]
    · intro hs
      refine ⟨?_, ?_, ?_, ?_⟩
      · intro h1 h2
        simp [sync_file_decision, h, hs, h1, h2]
      · intro h1 h2
        by_cases hsn : delta.source_newer || delta.size_differs <;>
          simp [sync_file_decision, h, hs, h1, h2, hsn]
      · intro h1 h2
        by_cases hso : delta.source_older <;>
          simp [sync_file_decision, h, hs, h1, h2, hso]
      · intro h1 h2
        refine ⟨?_, ?_, ?_⟩
        · intro hc
          rcases hc with hc | hc <;> simp [sync_file_decision, h, hs, h1, h2, hc]
        · intro hc
          simp [sync_file_decision, h, hs, h1, h2, hc]
        · intro hc
          simp [sync_file_decision, h, hs, h1, h2, hc]

/-- File filter of resume_sync_with_state (sync_engine.rs): from the
re-scanned source keep the entries that are not directories, not excluded,
and whose stored per-file record (keyed by the absolute source path
source_root ++ relative path) is not Completed. -/
def resume_files_to_transfer (sourceFiles : List FileInfoM) (sourceRoot : PathM)
    (st : TransferState) (excluded : PathM → Bool) : List FileInfoM :=
  sourceFiles.filter (fun file =>
    if file.is_dir then
      false
    else if excluded file.path then
      false
    else
      match filesGet st.files (sourceRoot ++ file.path) with
      | some fs => decide (fs.status ≠ TransferStatus.completed)
      | none => true)

/-- C10: skip_file sets the skipped file's status to Completed (TransferStatus
has no Skipped variant), increments files_skipped and leaves files_completed
unchanged; the transfer filter of resume_sync_with_state, which excludes
files whose stored status is Completed, therefore never re-dispatches a file
a previous run skipped. -/
theorem c10_skip_never_redispatched (st : TransferState) (p : PathM)
    (fs : FileTransferState) (hget : filesGet st.files p = some fs) :
    (filesGet (st.skip_file p).files p
        = some { fs with status := TransferStatus.completed })
      ∧ (st.skip_file p).files_skipped = st.files_skipped + 1
      ∧ (st.skip_file p).files_completed = st.files_completed
      ∧ ∀ (sourceFiles : List FileInfoM) (root : PathM)
          (excluded : PathM → Bool) (file : FileInfoM),
          root ++ file.path = p →
          file ∉ resume_files_to_transfer sourceFiles root (st.skip_file p)
            excluded := by
  have hupd : filesGet (st.skip_file p).files p
      = some { fs with status := TransferStatus.completed } := by
    simp only [TransferState.skip_file, hget]
    rw [filesGet_filesUpdate_self, hget]
    rfl
  refine ⟨hupd, ?_, ?_, ?_⟩
  · simp [TransferState.skip_file, hget]
  · simp [TransferState.skip_file, hget]
  · intro sourceFiles root excluded file hpath hmem
    rw [resume_files_to_transfer, List.mem_filter] at hmem
    obtain ⟨-, hpred⟩ := hmem
    rw [hpath, hupd] at hpred
    by_cases hd : file.is_dir
    · simp [hd] at hpred
    · by_cases he : excluded file.path <;> simp [hd, he] at hpred

/-- One transferred file registered under absolute source path [4, 9]. -/
def c10State : TransferState :=
  (TransferState.new [4] [2]).applyOps
    [TransferOp.addFile (FileTransferState.new [4, 9] [2, 9] 3 0)]

/-- The re-scanned source entry whose absolute path is [4] ++ [9]. -/
def c10File : FileInfoM :=
  { path := [9]
    size := 3
    modified := 0
    is_dir := false
    is_symlink := false }

/-- Witness for C10: after skipping [4, 9], the stored record is Completed,
the counters moved as claimed, and the resume filter drops the re-scanned
entry. -/
theorem c10_skip_never_redispatched_witness :
    (filesGet (c10State.skip_file [4, 9]).files [4, 9]
        = some { FileTransferState.new [4, 9] [2, 9] 3 0 with
                  status := TransferStatus.completed })
      ∧ (c10State.skip_file [4, 9]).files_skipped
          = c10State.files_skipped + 1
      ∧ (c10State.skip_file [4, 9]).files_completed
          = c10State.files_completed
      ∧ c10File ∉ resume_files_to_transfer [c10File] [4]
          (c10State.skip_file [4, 9]) (fun _ => false) := by
  have h := c10_skip_never_redispatched c10State [4, 9]
    (FileTransferState.new [4, 9] [2, 9] 3 0) (by decide)
  exact ⟨h.1, h.2.1, h.2.2.1,
    h.2.2.2 [c10File] [4] (fun _ => false) c10File (by decide)⟩

/-! Copy engine (file_ops.rs). The filesystem is a map from path text to file
content; a content is the list of chunks the copy loop reads. Fallible
operating-system steps are driven by a failure oracle (`CopyFail`) naming the
step at which the run fails, so a theorem quantifying over the oracle covers a
failure at every point of the protocol. The disk-space pre-check of
copy_file_atomic is modelled as passing (its DiskFull exit happens before any
file is opened), and directories are not modelled. -/

/-- One buffer read and written by the copy loop. -/
abbrev Chunk := List Nat

/-- File content as the sequence of copied chunks. -/
abbrev Content := List Chunk

/-- Path text, as built by get_temp_path by string concatenation. -/
abbrev FsPath := String

/-- Filesystem: association list from path to content. -/
abbrev FS := List (FsPath × Content)

/-- Content at a path, none when the file is absent. -/
def fsGet (fs : FS) (p : FsPath) : Option Content :=
  (fs.find? (fun q => decide (q.1 = p))).map Prod.snd

/-- Remove a path (fs::remove_file; absent paths are left as they are). -/
def fsRemove (fs : FS) (p : FsPath) : FS :=
  fs.filter (fun q => decide (q.1 ≠ p))

/-- Write the full content at a path (File::create semantics): the path now
maps to `c` and every other path is untouched. -/
def fsSet (fs : FS) (p : FsPath) (c : Content) : FS :=
  (p, c) :: fsRemove fs p

/-- Append one chunk to a file (one write_all of the copy loop). -/
def fsAppend (fs : FS) (p : FsPath) (ch : Chunk) : FS :=
  fsSet fs p ((fsGet fs p).getD [] ++ [ch])

/-- Error taxonomy (errors.rs), with the variants the verified claims
distinguish; `io code` stands for SyncError::Io carrying an OS error. -/
inductive SyncErrorM where
  | io (code : Nat)
  | transferCancelled
  | sourceNotFound
  | hashMismatch
  | sourceModifiedDuringCopy (expected actual : Int)
  | diskFull
  | incompleteScan (errorCount : Nat) (preview : List Nat)
deriving DecidableEq, Repr

/-- The step of the copy protocol at which the injected failure strikes;
`none` is a failure-free run. -/
inductive CopyFail where
  | none
  | readAt (i : Nat)
  | writeAt (i : Nat)
  | cancelAt (i : Nat)
  | flushFail
  | syncFail
  | metadataFail
  | verifyStatFail
  | hashSourceFail
  | hashDestFail
  | renameFail
deriving DecidableEq, Repr

/-- Environment of one copy run: the failure oracle and the source mtime the
verification re-read observes. -/
structure CopyEnv where
  fail : CopyFail
  srcMtimeAfter : Int
deriving DecidableEq, Repr

/-- CopyOptions from file_ops.rs. -/
structure CopyOptionsM where
  buffer_size : Nat
  preserve_metadata : Bool
  verify_integrity : Bool
  resume_offset : Nat
  bandwidth_limit : Nat
  pre_copy_source_hash : Option Nat
  source_mtime_before_copy : Option Int
deriving DecidableEq, Repr

/-- Deterministic stand-in for the streaming xxh3 hash of compute_file_hash:
the claims only compare hash values for equality. -/
def hashChunk (c : Chunk) : Nat :=
  c.foldl (fun h b => Nat.pair h b) 0

/-- Hash of a whole content. -/
def hashContent (c : Content) : Nat :=
  c.foldl (fun h ch => Nat.pair h (hashChunk ch)) 1

/-- Byte count of a content. -/
def contentBytes (c : Content) : Nat :=
  (c.map List.length).sum

/-- Read/write loop of copy_file_with_progress: at chunk i the read, the
write or the progress callback (cancellation) may fail; a written chunk is
appended to the destination before the callback runs. -/
def copyLoop (fs : FS) (dest : FsPath) (chunks : List Chunk) (i : Nat)
    (fail : CopyFail) : Except SyncErrorM Unit × FS :=
  match chunks with
  | [] => (Except.ok (), fs)
  | ch :: rest =>
    if fail = CopyFail.readAt i then
      (Except.error (SyncErrorM.io 10), fs)
    else if fail = CopyFail.writeAt i then
      (Except.error (SyncErrorM.io 11), fs)
    else
      let fs1 := fsAppend fs dest ch
      if fail = CopyFail.cancelAt i then
        (Except.error SyncErrorM.transferCancelled, fs1)
      else
        copyLoop fs1 dest rest (i + 1) fail

/-- End-to-end hash comparison of the verification block (file_ops.rs lines
726-739), on the options' pre_copy_source_hash: the source hash is the
pre-computed one when supplied, else the source is hashed now; then the
destination is hashed and compared. -/
def end_to_end_hash_check (preHash : Option Nat) (env : CopyEnv)
    (srcContent destContent : Content) : Except SyncErrorM Unit :=
  match preHash with
  | some h =>
    if env.fail = CopyFail.hashDestFail then
      Except.error (SyncErrorM.io 14)
    else if hashContent destContent ≠ h then
      Except.error SyncErrorM.hashMismatch
    else
      Except.ok ()
  | none =>
    if env.fail = CopyFail.hashSourceFail then
      Except.error (SyncErrorM.io 13)
    else if env.fail = CopyFail.hashDestFail then
      Except.error (SyncErrorM.io 14)
    else if hashContent destContent ≠ hashContent srcContent then
      Except.error SyncErrorM.hashMismatch
    else
      Except.ok ()

/-- Source-mtime re-read of the verification block (file_ops.rs lines
713-724), on the options' source_mtime_before_copy: when a pre-copy mtime was
captured, re-stat the source and fail with SourceModifiedDuringCopy if the
mtime changed; otherwise continue with `next`. -/
def mtime_recheck (mtimeBefore : Option Int) (env : CopyEnv)
    (next : Except SyncErrorM Unit) : Except SyncErrorM Unit :=
  match mtimeBefore with
  | some expected =>
    if env.fail = CopyFail.verifyStatFail then
      Except.error (SyncErrorM.io 12)
    else if env.srcMtimeAfter ≠ expected then
      Except.error (SyncErrorM.sourceModifiedDuringCopy expected env.srcMtimeAfter)
    else
      next
  | none => next

/-- Verification block of copy_file_with_progress (file_ops.rs lines
712-740): when verify_integrity is set, the mtime re-check runs first, then
the end-to-end hash comparison. -/
def verify_integrity_check (opts : CopyOptionsM) (env : CopyEnv)
    (srcContent destContent : Content) : Except SyncErrorM Unit :=
  if opts.verify_integrity = false then
    Except.ok ()
  else
    mtime_recheck opts.source_mtime_before_copy env
      (end_to_end_hash_check opts.pre_copy_source_hash env srcContent destContent)

/-- copy_file_with_progress (file_ops.rs): open the source, create the
destination (no truncation on resume), run the loop, flush and sync, apply
best-effort metadata preservation (whose mtime read can still fail), then the
verification block; returns the cumulated byte count. The bandwidth throttle
only sleeps and is not modelled. `openDest` opens the destination: truncating
create on a fresh copy, write-no-truncate (creating when absent) on resume. -/
def openDest (fs : FS) (dest : FsPath) (resume_offset : Nat) : FS :=
  if 0 < resume_offset then
    if (fsGet fs dest).isSome then fs else fsSet fs dest []
  else
    fsSet fs dest []

def copy_file_with_progress_model (fs : FS) (source dest : FsPath)
    (opts : CopyOptionsM) (env : CopyEnv) : Except SyncErrorM Nat × FS :=
  match fsGet fs source with
  | none => (Except.error (SyncErrorM.io 2), fs)
  | some chunks =>
    match copyLoop (openDest fs dest opts.resume_offset) dest chunks 0 env.fail with
    | (Except.error e, fs2) => (Except.error e, fs2)
    | (Except.ok _, fs2) =>
      if env.fail = CopyFail.flushFail then
        (Except.error (SyncErrorM.io 3), fs2)
      else if env.fail = CopyFail.syncFail then
        (Except.error (SyncErrorM.io 4), fs2)
      else if opts.preserve_metadata && env.fail = CopyFail.metadataFail then
        (Except.error (SyncErrorM.io 5), fs2)
      else
        match verify_integrity_check opts env chunks ((fsGet fs2 dest).getD []) with
        | Except.error e => (Except.error e, fs2)
        | Except.ok _ =>
          (Except.ok (opts.resume_offset + contentBytes chunks), fs2)

/-- classify_io_error on the codes of this model: the NotFound code of a
failed open maps to SourceNotFound, other codes pass through as Io. -/
def classify_code (code : Nat) : SyncErrorM :=
  if code = 2 then SyncErrorM.sourceNotFound else SyncErrorM.io code

/-- Re-classification copy_file_atomic applies to a generic Io error. -/
def reclassify (e : SyncErrorM) : SyncErrorM :=
  match e with
  | SyncErrorM.io code => classify_code code
  | e => e

/-- get_temp_path (file_ops.rs): the sibling temp file of a destination. -/
def get_temp_path (dest : FsPath) : FsPath := dest ++ ".rsync-tmp"

/-- get_partial_path (file_ops.rs). -/
def get_partial_path (dest : FsPath) : FsPath := dest ++ ".rsync-partial"

/-- cleanup_temp_files (file_ops.rs): drop stale temp and partial siblings. -/
def cleanup_temp_files (fs : FS) (dest : FsPath) : FS :=
  fsRemove (fsRemove fs (get_temp_path dest)) (get_partial_path dest)

/-- copy_file_atomic (file_ops.rs): resumes fall through to the plain copy;
a fresh copy stats the source, cleans stale temp files, copies into the temp
sibling and publishes it by rename, removing the temp file on any failure. -/
def copy_file_atomic_model (fs : FS) (source dest : FsPath)
    (opts : CopyOptionsM) (env : CopyEnv) : Except SyncErrorM Nat × FS :=
  if 0 < opts.resume_offset then
    copy_file_with_progress_model fs source dest opts env
  else
    match fsGet fs source with
    | none => (Except.error SyncErrorM.sourceNotFound, fs)
    | some _ =>
      let temp := get_temp_path dest
      let fs1 := cleanup_temp_files fs dest
      match copy_file_with_progress_model fs1 source temp opts env with
      | (Except.ok bytes, fs2) =>
        if env.fail = CopyFail.renameFail then
          (Except.error (SyncErrorM.io 6), fsRemove fs2 temp)
        else
          (Except.ok bytes,
            fsRemove (fsSet fs2 dest ((fsGet fs2 temp).getD [])) temp)
      | (Except.error e, fs2) => (Except.error (reclassify e), fsRemove fs2 temp)

theorem fsGet_cons (a : FsPath × Content) (l : FS) (p : FsPath) :
    fsGet (a :: l) p = if a.1 = p then some a.2 else fsGet l p := by
  by_cases h : a.1 = p <;> simp [fsGet, List.find?, h]

theorem fsGet_fsRemove_self (fs : FS) (p : FsPath) :
    fsGet (fsRemove fs p) p = none := by
  induction fs with
  | nil => rfl
  | cons a t ih =>
    rw [fsRemove, List.filter_cons]
    by_cases h : a.1 = p
    · rw [if_neg (by simp [h])]
      exact ih
    · rw [if_pos (by simp [h])]
      rw [fsGet_cons, if_neg h]
      exact ih

theorem fsGet_fsRemove_ne (fs : FS) (p q : FsPath) (hq : q ≠ p) :
    fsGet (fsRemove fs p) q = fsGet fs q := by
  induction fs with
  | nil => rfl
  | cons a t ih =>
    rw [fsRemove, List.filter_cons, fsGet_cons]
    by_cases h : a.1 = p
    · rw [if_neg (by simp [h])]
      have hne : ¬ a.1 = q := fun he => hq (by rw [← he, h])
      rw [if_neg hne]
      exact ih
    · rw [if_pos (by simp [h])]
      rw [fsGet_cons]
      by_cases h2 : a.1 = q
      · rw [if_pos h2, if_pos h2]
      · rw [if_neg h2, if_neg h2]
        exact ih

theorem fsGet_fsSet_self (fs : FS) (p : FsPath) (c : Content) :
    fsGet (fsSet fs p c) p = some c := by
  rw [fsSet, fsGet_cons]
  simp

theorem fsGet_fsSet_ne (fs : FS) (p q : FsPath) (c : Content) (hq : q ≠ p) :
    fsGet (fsSet fs p c) q = fsGet fs q := by
  rw [fsSet, fsGet_cons, if_neg (fun he => hq he.symm)]
  exact fsGet_fsRemove_ne fs p q hq

theorem fsGet_fsAppend_ne (fs : FS) (p q : FsPath) (ch : Chunk) (hq : q ≠ p) :
    fsGet (fsAppend fs p ch) q = fsGet fs q := by
  rw [fsAppend]
  exact fsGet_fsSet_ne fs p q _ hq

theorem self_ne_append (a s : String) (h : s.length ≠ 0) : a ≠ a ++ s := by
  intro he
  have hl := congrArg String.length he
  rw [String.length_append] at hl
  omega

theorem dest_ne_temp (dest : FsPath) : dest ≠ get_temp_path dest :=
  self_ne_append dest ".rsync-tmp" (by decide)

theorem dest_ne_partial_path (dest : FsPath) : dest ≠ get_partial_path dest :=
  self_ne_append dest ".rsync-partial" (by decide)

theorem fsGet_cleanup_ne (fs : FS) (dest p : FsPath)
    (h1 : p ≠ get_temp_path dest) (h2 : p ≠ get_partial_path dest) :
    fsGet (cleanup_temp_files fs dest) p = fsGet fs p := by
  rw [cleanup_temp_files, fsGet_fsRemove_ne _ _ _ h2, fsGet_fsRemove_ne _ _ _ h1]

theorem copyLoop_frame (chunks : List Chunk) (fs : FS) (dest : FsPath)
    (i : Nat) (fail : CopyFail) (p : FsPath) (hp : p ≠ dest) :
    fsGet (copyLoop fs dest chunks i fail).2 p = fsGet fs p := by
  induction chunks generalizing fs i with
  | nil => rfl
  | cons ch rest ih =>
    rw [copyLoop]
    by_cases h1 : fail = CopyFail.readAt i
    · rw [if_pos h1]
    · rw [if_neg h1]
      by_cases h2 : fail = CopyFail.writeAt i
      · rw [if_pos h2]
      · rw [if_neg h2]
        by_cases h3 : fail = CopyFail.cancelAt i
        · simp only [h3, if_true, if_pos]
          exact fsGet_fsAppend_ne fs dest p ch hp
        · simp only [if_neg h3]
          rw [ih]
          exact fsGet_fsAppend_ne fs dest p ch hp

theorem copyLoop_ok_content (chunks : List Chunk) (fs : FS) (dest : FsPath)
    (i : Nat) (fail : CopyFail) (c : Content) (fs2 : FS)
    (hc : fsGet fs dest = some c)
    (h : copyLoop fs dest chunks i fail = (Except.ok (), fs2)) :
    fsGet fs2 dest = some (c ++ chunks) := by
  induction chunks generalizing fs i c with
  | nil =>
    rw [copyLoop] at h
    injection h with h1 h2
    rw [← h2]
    simpa using hc
  | cons ch rest ih =>
    rw [copyLoop] at h
    by_cases h1 : fail = CopyFail.readAt i
    · rw [if_pos h1] at h
      simp at h
    · rw [if_neg h1] at h
      by_cases h2 : fail = CopyFail.writeAt i
      · rw [if_pos h2] at h
        simp at h
      · rw [if_neg h2] at h
        by_cases h3 : fail = CopyFail.cancelAt i
        · simp only [h3, if_true, if_pos] at h
          simp at h
        · simp only [if_neg h3] at h
          have hset : fsGet (fsAppend fs dest ch) dest = some (c ++ [ch]) := by
            rw [fsAppend, hc]
            simpa using fsGet_fsSet_self fs dest (c ++ [ch])
          have := ih (fsAppend fs dest ch) (i + 1) (c ++ [ch]) hset h
          simpa using this

theorem fsGet_openDest_ne (fs : FS) (dest : FsPath) (ro : Nat) (p : FsPath)
    (hp : p ≠ dest) : fsGet (openDest fs dest ro) p = fsGet fs p := by
  unfold openDest
  split
  · split
    · rfl
    · exact fsGet_fsSet_ne fs dest p [] hp
  · exact fsGet_fsSet_ne fs dest p [] hp

theorem copy_model_frame (fs : FS) (source dest : FsPath)
    (opts : CopyOptionsM) (env : CopyEnv) (p : FsPath) (hp : p ≠ dest) :
    fsGet (copy_file_with_progress_model fs source dest opts env).2 p
      = fsGet fs p := by
  unfold copy_file_with_progress_model
  cases hsrc : fsGet fs source with
  | none => rfl
  | some chunks =>
    dsimp only
    cases hloop : copyLoop (openDest fs dest opts.resume_offset) dest chunks
        0 env.fail with
    | mk r fs2 =>
      have hfs2 : fsGet fs2 p = fsGet fs p := by
        have hfr := copyLoop_frame chunks (openDest fs dest opts.resume_offset)
          dest 0 env.fail p hp
        rw [hloop] at hfr
        rw [hfr]
        exact fsGet_openDest_ne fs dest opts.resume_offset p hp
      cases r with
      | error e => exact hfs2
      | ok u =>
        dsimp only
        split
        · exact hfs2
        · split
          · exact hfs2
          · split
            · exact hfs2
            · cases hv : verify_integrity_check opts env chunks
                ((fsGet fs2 dest).getD []) with
              | error e2 => dsimp only; exact hfs2
              | ok u2 => dsimp only; exact hfs2

theorem copy_model_ok_content (fs : FS) (source dest : FsPath)
    (opts : CopyOptionsM) (env : CopyEnv) (n : Nat) (fs2 : FS)
    (h0 : opts.resume_offset = 0)
    (h : copy_file_with_progress_model fs source dest opts env
      = (Except.ok n, fs2)) :
    fsGet fs2 dest = fsGet fs source := by
  unfold copy_file_with_progress_model at h
  cases hsrc : fsGet fs source with
  | none =>
    rw [hsrc] at h
    simp at h
  | some chunks =>
    rw [hsrc] at h
    dsimp only at h
    cases hloop : copyLoop (openDest fs dest opts.resume_offset) dest chunks
        0 env.fail with
    | mk r fs3 =>
      rw [hloop] at h
      cases r with
      | error e => simp at h
      | ok u =>
        dsimp only at h
        by_cases h1 : env.fail = CopyFail.flushFail
        · rw [if_pos (by simp [h1])] at h
          simp at h
        · rw [if_neg (by simp [h1])] at h
          by_cases h2 : env.fail = CopyFail.syncFail
          · rw [if_pos (by simp [h2])] at h
            simp at h
          · rw [if_neg (by simp [h2])] at h
            by_cases h3 : (opts.preserve_metadata
                && decide (env.fail = CopyFail.metadataFail)) = true
            · rw [if_pos h3] at h
              simp at h
            · rw [if_neg h3] at h
              cases hv : verify_integrity_check opts env chunks
                  ((fsGet fs3 dest).getD []) with
              | error e2 =>
                rw [hv] at h
                simp at h
              | ok u2 =>
                rw [hv] at h
                dsimp only at h
                injection h with hfst hsnd
                subst hsnd
                have hopen : fsGet (openDest fs dest opts.resume_offset) dest
                    = some [] := by
                  unfold openDest
                  rw [if_neg (by omega)]
                  exact fsGet_fsSet_self fs dest []
                have := copyLoop_ok_content chunks
                  (openDest fs dest opts.resume_offset) dest 0 env.fail []
                  fs3 hopen hloop
                rw [this]
                simp

/-- C1: a fresh copy via copy_file_atomic (resume_offset = 0) that fails at
any point after the temp file is created — read, write, cancellation, flush,
sync, metadata preservation, integrity verification or the final rename —
returns the error, removes the temporary file dest ++ ".rsync-tmp", and
leaves any pre-existing destination file byte-for-byte unchanged; the
destination is written only by the final rename, which installs exactly the
source content read at the start of the copy. The first conjunct (destination
unchanged) holds for every failure; the temp-file-removed conjunct assumes
the source stat succeeded, since a copy that fails before that stat never
created a temp file and leaves any stale sibling for the pre-copy cleanup. -/
theorem c1_atomic_copy_failure_safety (fs : FS) (source dest : FsPath)
    (opts : CopyOptionsM) (env : CopyEnv) (h0 : opts.resume_offset = 0) :
    (∀ e, (copy_file_atomic_model fs source dest opts env).1 = Except.error e →
      fsGet (copy_file_atomic_model fs source dest opts env).2 dest
        = fsGet fs dest)
    ∧ (∀ e, (copy_file_atomic_model fs source dest opts env).1 = Except.error e →
        fsGet fs source ≠ none →
        fsGet (copy_file_atomic_model fs source dest opts env).2
          (get_temp_path dest) = none)
    ∧ (∀ n, (copy_file_atomic_model fs source dest opts env).1 = Except.ok n →
        fsGet (copy_file_atomic_model fs source dest opts env).2
          (get_temp_path dest) = none
        ∧ fsGet (copy_file_atomic_model fs source dest opts env).2 dest
          = fsGet (cleanup_temp_files fs dest) source) := by
  have hnr : ¬ 0 < opts.resume_offset := by omega
  unfold copy_file_atomic_model
  rw [if_neg hnr]
  cases hsrc : fsGet fs source with
  | none =>
    refine ⟨?_, ?_, ?_⟩
    · intro e he
      rfl
    · intro e he hs
      exact absurd rfl hs
    · intro n hn
      simp at hn
  | some chunks0 =>
    dsimp only
    cases hcp : copy_file_with_progress_model (cleanup_temp_files fs dest)
        source (get_temp_path dest) opts env with
    | mk r fs2 =>
      have hframe : fsGet fs2 dest = fsGet fs dest := by
        have hfr := copy_model_frame (cleanup_temp_files fs dest) source
          (get_temp_path dest) opts env dest (dest_ne_temp dest)
        rw [hcp] at hfr
        rw [hfr]
        exact fsGet_cleanup_ne fs dest dest (dest_ne_temp dest)
          (dest_ne_partial_path dest)
      cases r with
      | error e0 =>
        refine ⟨?_, ?_, ?_⟩
        · intro e he
          rw [fsGet_fsRemove_ne fs2 (get_temp_path dest) dest
            (dest_ne_temp dest)]
          exact hframe
        · intro e he hs
          exact fsGet_fsRemove_self fs2 (get_temp_path dest)
        · intro n hn
          simp at hn
      | ok bytes =>
        dsimp only
        by_cases hrf : env.fail = CopyFail.renameFail
        · rw [if_pos (by simp [hrf])]
          refine ⟨?_, ?_, ?_⟩
          · intro e he
            rw [fsGet_fsRemove_ne fs2 (get_temp_path dest) dest
              (dest_ne_temp dest)]
            exact hframe
          · intro e he hs
            exact fsGet_fsRemove_self fs2 (get_temp_path dest)
          · intro n hn
            simp at hn
        · rw [if_neg (by simp [hrf])]
          refine ⟨?_, ?_, ?_⟩
          · intro e he
            simp at he
          · intro e he hs
            simp at he
          · intro n hn
            constructor
            · exact fsGet_fsRemove_self _ (get_temp_path dest)
            · rw [fsGet_fsRemove_ne _ (get_temp_path dest) dest
                (dest_ne_temp dest)]
              rw [fsGet_fsSet_self]
              have hok := copy_model_ok_content (cleanup_temp_files fs dest)
                source (get_temp_path dest) opts env bytes fs2 h0 hcp
              cases hsc : fsGet (cleanup_temp_files fs dest) source with
              | none =>
                unfold copy_file_with_progress_model at hcp
                rw [hsc] at hcp
                simp at hcp
              | some c =>
                rw [hsc] at hok
                rw [hok]
                rfl

/-- Two-file filesystem: a two-chunk source "s" and a one-chunk existing
destination "d". -/
def c1Fs : FS := [("s", [[1, 2]]), ("d", [[9]])]

/-- Fresh-copy options: resume_offset 0, no verification. -/
def c1Opts : CopyOptionsM :=
  { buffer_size := 8
    preserve_metadata := false
    verify_integrity := false
    resume_offset := 0
    bandwidth_limit := 0
    pre_copy_source_hash := none
    source_mtime_before_copy := none }

/-- Failure-free environment. -/
def c1Env : CopyEnv :=
  { fail := CopyFail.none
    srcMtimeAfter := 0 }

/-- Witness for C1: the failure-free fresh copy of "s" over "d" leaves no
temp file and installs exactly the source content at "d". -/
theorem c1_atomic_copy_failure_safety_witness :
    fsGet (copy_file_atomic_model c1Fs "s" "d" c1Opts c1Env).2
        (get_temp_path "d") = none
      ∧ fsGet (copy_file_atomic_model c1Fs "s" "d" c1Opts c1Env).2 "d"
        = fsGet (cleanup_temp_files c1Fs "d") "s" :=
  (c1_atomic_copy_failure_safety c1Fs "s" "d" c1Opts c1Env rfl).2.2 2 (by rfl)

theorem verify_ok_implications (opts : CopyOptionsM) (env : CopyEnv)
    (srcC destC : Content)
    (h : verify_integrity_check opts env srcC destC = Except.ok ()) :
    (opts.verify_integrity = true →
      (∀ t, opts.source_mtime_before_copy = some t → env.srcMtimeAfter = t)
      ∧ (∀ hh, opts.pre_copy_source_hash = some hh → hashContent destC = hh)) := by
  intro hv
  unfold verify_integrity_check at h
  rw [if_neg (by simp [hv])] at h
  have hhash : end_to_end_hash_check opts.pre_copy_source_hash env srcC destC
        = Except.ok () →
      ∀ hh, opts.pre_copy_source_hash = some hh → hashContent destC = hh := by
    intro he hh hph
    rw [hph] at he
    simp only [end_to_end_hash_check] at he
    by_cases h3 : env.fail = CopyFail.hashDestFail
    · rw [if_pos (by simp [h3])] at he
      simp at he
    · rw [if_neg (by simp [h3])] at he
      by_cases h4 : hashContent destC = hh
      · exact h4
      · rw [if_pos (by simp [h4])] at he
        simp at he
  cases hm : opts.source_mtime_before_copy with
  | some t =>
    rw [hm] at h
    simp only [mtime_recheck] at h
    by_cases h1 : env.fail = CopyFail.verifyStatFail
    · rw [if_pos (by simp [h1])] at h
      simp at h
    · rw [if_neg (by simp [h1])] at h
      by_cases h2 : env.srcMtimeAfter = t
      · rw [if_neg (by simp [h2])] at h
        refine ⟨?_, hhash h⟩
        intro t2 ht2
        injection ht2 with he2
        rw [← he2]
        exact h2
      · rw [if_pos (by simp [h2])] at h
        simp at h
  | none =>
    rw [hm] at h
    simp only [mtime_recheck] at h
    refine ⟨?_, hhash h⟩
    intro t2 ht2
    simp at ht2

theorem copy_model_ok_verify (fs : FS) (source dest : FsPath)
    (opts : CopyOptionsM) (env : CopyEnv) (n : Nat) (fs2 : FS)
    (h : copy_file_with_progress_model fs source dest opts env
      = (Except.ok n, fs2)) :
    verify_integrity_check opts env ((fsGet fs source).getD [])
      ((fsGet fs2 dest).getD []) = Except.ok () := by
  unfold copy_file_with_progress_model at h
  cases hsrc : fsGet fs source with
  | none =>
    rw [hsrc] at h
    simp at h
  | some chunks =>
    rw [hsrc] at h
    dsimp only at h
    cases hloop : copyLoop (openDest fs dest opts.resume_offset) dest chunks
        0 env.fail with
    | mk r fs3 =>
      rw [hloop] at h
      cases r with
      | error e => simp at h
      | ok u =>
        dsimp only at h
        by_cases h1 : env.fail = CopyFail.flushFail
        · rw [if_pos (by simp [h1])] at h
          simp at h
        · rw [if_neg (by simp [h1])] at h
          by_cases h2 : env.fail = CopyFail.syncFail
          · rw [if_pos (by simp [h2])] at h
            simp at h
          · rw [if_neg (by simp [h2])] at h
            by_cases h3 : (opts.preserve_metadata
                && decide (env.fail = CopyFail.metadataFail)) = true
            · rw [if_pos h3] at h
              simp at h
            · rw [if_neg h3] at h
              cases hv : verify_integrity_check opts env chunks
                  ((fsGet fs3 dest).getD []) with
              | error e2 =>
                rw [hv] at h
                simp at h
              | ok u2 =>
                rw [hv] at h
                dsimp only at h
                injection h with hfst hsnd
                subst hsnd
                cases u2
                simpa using hv

/-- C3: with verify_integrity = true the verification block first re-reads
the source mtime when source_mtime_before_copy was captured and fails with
SourceModifiedDuringCopy if it differs; otherwise the destination hash is
compared against pre_copy_source_hash when supplied (else against a source
hash computed after the copy) and a mismatch fails with HashMismatch. Hence
a copy that returns Ok never saw a changed source mtime, and its destination
hash equals the captured pre-copy source hash: a source modified between
pre-copy capture and post-copy verification never yields a silent success. -/
theorem c3_integrity_verification (opts : CopyOptionsM) (env : CopyEnv)
    (srcC destC : Content) (hv : opts.verify_integrity = true) :
    (∀ t, opts.source_mtime_before_copy = some t →
      env.fail ≠ CopyFail.verifyStatFail →
      env.srcMtimeAfter ≠ t →
      verify_integrity_check opts env srcC destC
        = Except.error (SyncErrorM.sourceModifiedDuringCopy t env.srcMtimeAfter))
    ∧ ((∀ t, opts.source_mtime_before_copy = some t → env.srcMtimeAfter = t) →
      env.fail ≠ CopyFail.verifyStatFail →
      env.fail ≠ CopyFail.hashSourceFail →
      env.fail ≠ CopyFail.hashDestFail →
      (∀ hh, opts.pre_copy_source_hash = some hh →
        verify_integrity_check opts env srcC destC
          = (if hashContent destC = hh then Except.ok ()
            else Except.error SyncErrorM.hashMismatch))
      ∧ (opts.pre_copy_source_hash = none →
        verify_integrity_check opts env srcC destC
          = (if hashContent destC = hashContent srcC then Except.ok ()
            else Except.error SyncErrorM.hashMismatch)))
    ∧ (∀ fs source dest n fs2,
        copy_file_with_progress_model fs source dest opts env
          = (Except.ok n, fs2) →
        (∀ t, opts.source_mtime_before_copy = some t → env.srcMtimeAfter = t)
        ∧ (∀ hh, opts.pre_copy_source_hash = some hh →
            hashContent ((fsGet fs2 dest).getD []) = hh)) := by
  refine ⟨?_, ?_, ?_⟩
  · intro t ht hsf hne
    unfold verify_integrity_check
    rw [if_neg (by simp [hv]), ht]
    simp only [mtime_recheck]
    rw [if_neg (by simp [hsf]), if_pos (by simp [hne])]
  · intro hmt hsf hhs hhd
    constructor
    · intro hh hph
      have hhash : end_to_end_hash_check opts.pre_copy_source_hash env srcC destC
          = (if hashContent destC = hh then Except.ok ()
            else Except.error SyncErrorM.hashMismatch) := by
        rw [hph]
        simp only [end_to_end_hash_check]
        rw [if_neg (by simp [hhd])]
        by_cases h4 : hashContent destC = hh
        · rw [if_neg (by simp [h4]), if_pos h4]
        · rw [if_pos (by simp [h4]), if_neg h4]
      unfold verify_integrity_check
      rw [if_neg (by simp [hv])]
      cases hm : opts.source_mtime_before_copy with
      | some t =>
        simp only [mtime_recheck]
        rw [if_neg (by simp [hsf]), if_neg (by simp [hmt t hm])]
        exact hhash
      | none =>
        simp only [mtime_recheck]
        exact hhash
    · intro hph
      have hhash : end_to_end_hash_check opts.pre_copy_source_hash env srcC destC
          = (if hashContent destC = hashContent srcC then Except.ok ()
            else Except.error SyncErrorM.hashMismatch) := by
        rw [hph]
        simp only [end_to_end_hash_check]
        rw [if_neg (by simp [hhs]), if_neg (by simp [hhd])]
        by_cases h4 : hashContent destC = hashContent srcC
        · rw [if_neg (by simp [h4]), if_pos h4]
        · rw [if_pos (by simp [h4]), if_neg h4]
      unfold verify_integrity_check
      rw [if_neg (by simp [hv])]
      cases hm : opts.source_mtime_before_copy with
      | some t =>
        simp only [mtime_recheck]
        rw [if_neg (by simp [hsf]), if_neg (by simp [hmt t hm])]
        exact hhash
      | none =>
        simp only [mtime_recheck]
        exact hhash
  · intro fs source dest n fs2 h
    have hok := copy_model_ok_verify fs source dest opts env n fs2 h
    exact verify_ok_implications opts env ((fsGet fs source).getD [])
      ((fsGet fs2 dest).getD []) hok hv

/-- Options of a verified fresh copy whose pre-copy capture recorded mtime 5
and the hash of the two-chunk content. -/
def c3Opts : CopyOptionsM :=
  { buffer_size := 8
    preserve_metadata := true
    verify_integrity := true
    resume_offset := 0
    bandwidth_limit := 0
    pre_copy_source_hash := some (hashContent [[1, 2]])
    source_mtime_before_copy := some 5 }

/-- Environment whose verification re-read observes mtime 7 instead of the
captured 5: the source changed during the copy. -/
def c3EnvBad : CopyEnv :=
  { fail := CopyFail.none
    srcMtimeAfter := 7 }

/-- Witness for C3: with the mtime changed from 5 to 7 the verification block
fails with SourceModifiedDuringCopy. -/
theorem c3_integrity_verification_witness :
    verify_integrity_check c3Opts c3EnvBad [[1, 2]] [[1, 2]]
      = Except.error
          (SyncErrorM.sourceModifiedDuringCopy 5 c3EnvBad.srcMtimeAfter) :=
  (c3_integrity_verification c3Opts c3EnvBad [[1, 2]] [[1, 2]] rfl).1 5 rfl
    (by decide) (by decide)

/-! Orchestrator tail (sync_engine.rs, sync_files lines 699-727 and
cleanup_orphans lines 1001-1053). -/

/-- One entry of the summary's error list: a per-file failure renders as
"path: error", an orphan-sweep refusal as "Orphan cleanup skipped: error". -/
inductive SummaryError where
  | fileError (path : PathM) (e : SyncErrorM)
  | orphanCleanupSkipped (e : SyncErrorM)
deriving DecidableEq, Repr

/-- SyncResult_ (sync_engine.rs), the summary sync_files returns; duration_ms
is wall clock and omitted. -/
structure SyncSummaryM where
  files_total : Nat
  files_copied : Nat
  files_skipped : Nat
  files_failed : Nat
  bytes_total : Nat
  bytes_copied : Nat
  errors : List SummaryError
deriving DecidableEq, Repr

/-- SyncResult_::default. -/
def SyncSummaryM.default : SyncSummaryM :=
  { files_total := 0
    files_copied := 0
    files_skipped := 0
    files_failed := 0
    bytes_total := 0
    bytes_copied := 0
    errors := [] }

/-- ScanResult::with_errors plus is_complete (sync_engine.rs): the scan is
complete exactly when no per-entry error was recorded. -/
def scan_complete_of (scan_errors : List Nat) : Bool := scan_errors.isEmpty

/-- cleanup_orphans (sync_engine.rs): refuse with IncompleteScan — carrying
the error count and the first three errors — before walking the destination
when the scan was incomplete; otherwise walk the destination entries
(relative path and directory flag) and remove every entry whose relative
path is not among the scanned source paths. Returns the removed paths. -/
def cleanup_orphans (sourceFiles : List FileInfoM)
    (destEntries : List (PathM × Bool)) (scan_complete : Bool)
    (scan_errors : List Nat) : Except SyncErrorM (List PathM) :=
  if scan_complete = false then
    Except.error
      (SyncErrorM.incompleteScan scan_errors.length (scan_errors.take 3))
  else
    Except.ok ((destEntries.filter (fun e =>
      !(sourceFiles.any (fun f => decide (f.path = e.1))))).map Prod.fst)

/-- Outcome of one regular-file worker of sync_files: the file's absolute
source path with Ok(bytes) or its classified error. -/
abbrev FileOutcome := PathM × Except SyncErrorM Nat

/-- Whether a worker outcome succeeded. -/
def outcomeOk : Except SyncErrorM Nat → Bool
  | Except.ok _ => true
  | Except.error _ => false

/-- files_copied accumulated from the worker outcomes. -/
def countCopied (outcomes : List FileOutcome) : Nat :=
  (outcomes.filter (fun o => outcomeOk o.2)).length

/-- files_failed accumulated from the worker outcomes. -/
def countFailed (outcomes : List FileOutcome) : Nat :=
  (outcomes.filter (fun o => !outcomeOk o.2)).length

/-- bytes_copied accumulated from the worker outcomes. -/
def bytesCopiedOf (outcomes : List FileOutcome) : Nat :=
  (outcomes.map (fun o => match o.2 with
    | Except.ok b => b
    | Except.error _ => 0)).sum

/-- The error entries the failed workers push into the summary. -/
def fileErrorsOf (outcomes : List FileOutcome) : List SummaryError :=
  outcomes.filterMap (fun o => match o.2 with
    | Except.ok _ => none
    | Except.error e => some (SummaryError.fileError o.1 e))

/-- What the tail of sync_files produces: the terminal status written to the
transfer record, the returned result, and the destination paths the orphan
sweep removed. -/
structure SyncTailResult where
  status : TransferStatus
  result : Except SyncErrorM SyncSummaryM
  deleted : List PathM

/-- Tail of sync_files (sync_engine.rs lines 699-727), entered after every
file worker has finished: a cancelled run is marked Cancelled and fails with
TransferCancelled; otherwise the worker outcomes are folded into the summary,
the orphan sweep runs when delete_orphans is set and dry_run is not — a
cleanup error being recorded as a non-fatal summary entry prefixed "Orphan
cleanup skipped" — and the transfer is marked Completed with the summary
returned as Ok. -/
def sync_files_tail (base : SyncSummaryM) (outcomes : List FileOutcome)
    (cancelled : Bool) (o : SyncOptionsM) (sourceFiles : List FileInfoM)
    (destEntries : List (PathM × Bool)) (scan_complete : Bool)
    (scan_errors : List Nat) : SyncTailResult :=
  if cancelled then
    { status := TransferStatus.cancelled
      result := Except.error SyncErrorM.transferCancelled
      deleted := [] }
  else
    let collected : SyncSummaryM :=
      { base with
        files_copied := base.files_copied + countCopied outcomes
        files_failed := base.files_failed + countFailed outcomes
        bytes_copied := base.bytes_copied + bytesCopiedOf outcomes
        errors := base.errors ++ fileErrorsOf outcomes }
    if o.delete_orphans && !o.dry_run then
      match cleanup_orphans sourceFiles destEntries scan_complete scan_errors with
      | Except.ok deleted =>
        { status := TransferStatus.completed
          result := Except.ok collected
          deleted := deleted }
      | Except.error e =>
        { status := TransferStatus.completed
          result := Except.ok
            { collected with
              errors := collected.errors
                ++ [SummaryError.orphanCleanupSkipped e] }
          deleted := [] }
    else
      { status := TransferStatus.completed
        result := Except.ok collected
        deleted := [] }

theorem mem_fileErrorsOf (outcomes : List FileOutcome) (p : PathM)
    (e : SyncErrorM) (h : (p, Except.error e) ∈ outcomes) :
    SummaryError.fileError p e ∈ fileErrorsOf outcomes := by
  rw [fileErrorsOf]
  exact List.mem_filterMap.mpr ⟨(p, Except.error e), h, rfl⟩

/-- Options with delete_orphans and dry_run both set. -/
def c2DryOpts : SyncOptionsM :=
  { mode := SyncMode.copy
    conflict_resolution := ConflictResolution.skip
    verify_integrity := false
    preserve_metadata := true
    delete_orphans := true
    dry_run := true
    follow_symlinks := false
    max_concurrent_files := 4
    overwrite_newer := false
    overwrite_older := false
    skip_existing := false
    bandwidth_limit := 0 }

/-- Claim C2 is false as stated: in a dry run with delete_orphans = true and
an incomplete scan (one scan error), sync_files skips the orphan phase
silently — the run returns Ok with an empty error list, so no "Orphan
cleanup skipped" entry is recorded, contradicting the claim's coverage of
every delete_orphans run. (Nothing is deleted, as before.) -/
theorem c2_counterexample :
    (sync_files_tail SyncSummaryM.default [] false c2DryOpts []
        [([3], false)] (scan_complete_of [1]) [1]).result
      = Except.ok SyncSummaryM.default
    ∧ SyncSummaryM.default.errors = [] := by
  constructor
  · rfl
  · rfl

/-- C2 (amended): for every sync run with delete_orphans = true and
dry_run = false that is not cancelled and whose source scan recorded at
least one error, the orphan sweep deletes no destination entry —
cleanup_orphans returns an IncompleteScan error before walking the
destination — and sync_files records that error in the summary's error list
(prefixed "Orphan cleanup skipped") instead of failing the sync: the run
still ends Ok with the transfer marked Completed. The amendment excludes
dry-run (and cancelled) runs, where the orphan phase is skipped silently and
no such entry is recorded. -/
theorem c2_orphan_sweep_safety_amended (base : SyncSummaryM)
    (outcomes : List FileOutcome) (o : SyncOptionsM)
    (sourceFiles : List FileInfoM) (destEntries : List (PathM × Bool))
    (scan_errors : List Nat)
    (hdo : o.delete_orphans = true) (hdr : o.dry_run = false)
    (hse : scan_errors ≠ []) :
    cleanup_orphans sourceFiles destEntries (scan_complete_of scan_errors)
        scan_errors
      = Except.error
          (SyncErrorM.incompleteScan scan_errors.length (scan_errors.take 3))
    ∧ (sync_files_tail base outcomes false o sourceFiles destEntries
        (scan_complete_of scan_errors) scan_errors).deleted = []
    ∧ (sync_files_tail base outcomes false o sourceFiles destEntries
        (scan_complete_of scan_errors) scan_errors).status
      = TransferStatus.completed
    ∧ ∃ s, (sync_files_tail base outcomes false o sourceFiles destEntries
          (scan_complete_of scan_errors) scan_errors).result = Except.ok s
        ∧ SummaryError.orphanCleanupSkipped
            (SyncErrorM.incompleteScan scan_errors.length (scan_errors.take 3))
          ∈ s.errors := by
  have hsc : scan_complete_of scan_errors = false := by
    simp [scan_complete_of, hse]
  have hclean : cleanup_orphans sourceFiles destEntries
      (scan_complete_of scan_errors) scan_errors
      = Except.error
          (SyncErrorM.incompleteScan scan_errors.length (scan_errors.take 3)) := by
    rw [cleanup_orphans, if_pos (by simp [hsc])]
  refine ⟨hclean, ?_⟩
  unfold sync_files_tail
  rw [if_neg (by simp), if_pos (by simp [hdo, hdr]), hclean]
  exact ⟨rfl, rfl, _, rfl,
    List.mem_append.mpr (Or.inr (List.mem_singleton.mpr rfl))⟩

/-- Witness for the amended C2 at a concrete incomplete scan: one scan error,
one orphan destination entry, nothing deleted, the entry recorded. -/
theorem c2_orphan_sweep_safety_amended_witness :
    cleanup_orphans [] [([3], false)] (scan_complete_of [1]) [1]
      = Except.error (SyncErrorM.incompleteScan ([1] : List Nat).length
          (([1] : List Nat).take 3))
    ∧ (sync_files_tail SyncSummaryM.default [] false
        { c2DryOpts with dry_run := false } [] [([3], false)]
        (scan_complete_of [1]) [1]).deleted = []
    ∧ (sync_files_tail SyncSummaryM.default [] false
        { c2DryOpts with dry_run := false } [] [([3], false)]
        (scan_complete_of [1]) [1]).status = TransferStatus.completed
    ∧ ∃ s, (sync_files_tail SyncSummaryM.default [] false
          { c2DryOpts with dry_run := false } [] [([3], false)]
          (scan_complete_of [1]) [1]).result = Except.ok s
        ∧ SummaryError.orphanCleanupSkipped
            (SyncErrorM.incompleteScan ([1] : List Nat).length
              (([1] : List Nat).take 3))
          ∈ s.errors :=
  c2_orphan_sweep_safety_amended SyncSummaryM.default []
    { c2DryOpts with dry_run := false } [] [([3], false)] [1]
    rfl rfl (by decide)

/-- C9: every sync_files run that reaches its end without being cancelled —
including runs with files_failed > 0 — marks the transfer Completed and
returns the summary as Ok: the per-file failures appear only as entries in
the summary's error list and in its files_failed count, and never abort the
sync as a whole. -/
theorem c9_failures_do_not_abort (base : SyncSummaryM)
    (outcomes : List FileOutcome) (cancelled : Bool) (o : SyncOptionsM)
    (sourceFiles : List FileInfoM) (destEntries : List (PathM × Bool))
    (scan_complete : Bool) (scan_errors : List Nat)
    (hc : cancelled = false) :
    (sync_files_tail base outcomes cancelled o sourceFiles destEntries
        scan_complete scan_errors).status = TransferStatus.completed
    ∧ ∃ s, (sync_files_tail base outcomes cancelled o sourceFiles destEntries
          scan_complete scan_errors).result = Except.ok s
        ∧ s.files_failed = base.files_failed + countFailed outcomes
        ∧ s.files_copied = base.files_copied + countCopied outcomes
        ∧ ∀ p e, (p, Except.error e) ∈ outcomes →
            SummaryError.fileError p e ∈ s.errors := by
  subst hc
  unfold sync_files_tail
  rw [if_neg (by simp)]
  by_cases hdo : (o.delete_orphans && !o.dry_run) = true
  · rw [if_pos hdo]
    cases hclean : cleanup_orphans sourceFiles destEntries scan_complete
        scan_errors with
    | ok deleted =>
      exact ⟨rfl, _, rfl, rfl, rfl, fun p e hmem =>
        List.mem_append.mpr (Or.inr (mem_fileErrorsOf outcomes p e hmem))⟩
    | error e0 =>
      exact ⟨rfl, _, rfl, rfl, rfl, fun p e hmem =>
        List.mem_append.mpr (Or.inl
          (List.mem_append.mpr (Or.inr (mem_fileErrorsOf outcomes p e hmem))))⟩
  · rw [if_neg hdo]
    exact ⟨rfl, _, rfl, rfl, rfl, fun p e hmem =>
      List.mem_append.mpr (Or.inr (mem_fileErrorsOf outcomes p e hmem))⟩

/-- Worker outcomes with one success and one classified failure. -/
def c9Outcomes : List FileOutcome :=
  [([1], Except.ok 5), ([2], Except.error (SyncErrorM.io 7))]

/-- Witness for C9 on a run with one failed file: still Completed and Ok. -/
theorem c9_failures_do_not_abort_witness :
    (sync_files_tail SyncSummaryM.default c9Outcomes false c2DryOpts [] []
        (scan_complete_of []) []).status = TransferStatus.completed
    ∧ ∃ s, (sync_files_tail SyncSummaryM.default c9Outcomes false c2DryOpts
          [] [] (scan_complete_of []) []).result = Except.ok s
        ∧ s.files_failed = SyncSummaryM.default.files_failed
            + countFailed c9Outcomes
        ∧ s.files_copied = SyncSummaryM.default.files_copied
            + countCopied c9Outcomes
        ∧ ∀ p e, (p, Except.error e) ∈ c9Outcomes →
            SummaryError.fileError p e ∈ s.errors :=
  c9_failures_do_not_abort SyncSummaryM.default c9Outcomes false c2DryOpts
    [] [] (scan_complete_of []) [] rfl

end Rsync
